import Mathlib

/-!
Shallow embedding of the extraction/normalization/ranking pipeline of
`src/app.py` (Korea–US news dashboard), together with theorems settling the
frozen claims about it.  Python strings are modelled as Lean `String`
(lists of unicode code points), machine timestamps as `Int`, Python sets of
tokens as `Finset String`, and Python floats as exact rationals `ℚ`.
External library calls (the permissive date parser of dateutil, `urllib.parse`) are
modelled as explicit function parameters or small faithful approximations,
noted at each definition.
-/

/-! ### Text utilities (`norm_text`, lowercase/uppercase, substring) -/

/-- Characters matched by the Python regex `\s` / removed by `str.strip()`
(ASCII whitespace; the titles handled by the pipeline contain no exotic
unicode spaces). -/
def isWsChar (c : Char) : Bool :=
  c = ' ' || c = '\t' || c = '\n' || c = '\r' || c = '\x0b' || c = '\x0c'

/-- Drop leading and trailing whitespace, as Python `str.strip()`. -/
def trimWs (l : List Char) : List Char :=
  ((l.dropWhile isWsChar).reverse.dropWhile isWsChar).reverse

/-- Replace every maximal run of whitespace by a single space, as
`re.sub(r"\s+", " ", ·)` on a string with no leading/trailing whitespace. -/
def collapseWs : List Char → List Char
  | [] => []
  | [c] => if isWsChar c then [' '] else [c]
  | c :: d :: rest =>
    if isWsChar c && isWsChar d then collapseWs (d :: rest)
    else (if isWsChar c then ' ' else c) :: collapseWs (d :: rest)

/-- `norm_text` from `src/app.py`: `_ws.sub(" ", (s or "").strip())`. -/
def norm_text (s : String) : String :=
  String.mk (collapseWs (trimWs s.toList))

/-- Python `str.lower()` (ASCII case mapping; Korean characters are fixed
points of `lower` in both Python and this model). -/
def toLowerStr (s : String) : String :=
  String.mk (s.toList.map Char.toLower)

/-- Python `str.upper()` (ASCII case mapping). -/
def toUpperStr (s : String) : String :=
  String.mk (s.toList.map Char.toUpper)

/-- Boolean list-prefix test. -/
def isPrefixL : List Char → List Char → Bool
  | [], _ => true
  | _ :: _, [] => false
  | a :: xs, b :: ys => a = b && isPrefixL xs ys

/-- Boolean list-infix test: `needle` occurs contiguously inside `hay`. -/
def isInfixL : List Char → List Char → Bool
  | ns, [] => ns.isEmpty
  | ns, c :: t => isPrefixL ns (c :: t) || isInfixL ns t

/-- The Python substring operator `sub in hay`. -/
def containsSub (hay sub : String) : Bool :=
  isInfixL sub.toList hay.toList

/-! ### State detection (`detect_state_strict` and its tiers) -/

/-- `STATE_ABBR` from `src/app.py`. -/
def STATE_ABBR : List String := ["GA", "TN", "AL", "SC", "FL"]

/-- The character class `[A-Z0-9]` used in the lookbehind/lookahead of
`STATE_ABBR_RE`. -/
def isUpperDigit (c : Char) : Bool :=
  (('A' ≤ c) && (c ≤ 'Z')) || (('0' ≤ c) && (c ≤ '9'))

/-- The negative lookbehind `(?<![A-Z0-9])`: satisfied at the start of the
string or when the preceding character is not an uppercase letter/digit. -/
def prevOk : Option Char → Bool
  | none => true
  | some c => !isUpperDigit c

/-- The negative lookahead `(?![A-Z0-9])` applied to the rest of the string
after a candidate match. -/
def nextOk : List Char → Bool
  | [] => true
  | c :: _ => !isUpperDigit c

/-- One candidate position of `STATE_ABBR_RE`: the abbreviation is a prefix
here and the lookahead holds after it. -/
def abbrAt (ab : List Char) (l : List Char) : Bool :=
  isPrefixL ab l && nextOk (l.drop ab.length)

/-- Scanner for `STATE_ABBR_RE.search`: `prev` is the character immediately
before `l` in the full text (`none` at the start of the string). -/
def findAbbrAux (ab : List Char) : Option Char → List Char → Bool
  | _, [] => false
  | prev, c :: rest => (prevOk prev && abbrAt ab (c :: rest)) || findAbbrAux ab (some c) rest

/-- `STATE_ABBR_RE[ab].search(t)` from `src/app.py` line 77:
`(?<![A-Z0-9])ab(?![A-Z0-9])` somewhere in `t`. -/
def findAbbr (ab : String) (t : String) : Bool :=
  findAbbrAux ab.toList none t.toList

/-- Tier 1 inner loop of `detect_state_strict`: scan the alias names of one
state code; skip aliases that normalize (uppercased) to a two-letter
abbreviation; otherwise match the lowercased alias as a substring of the
lowercased text. -/
def tier1Names (code : String) (tl : String) : List String → Option String
  | [] => none
  | n :: rest =>
    let nn := norm_text n
    if STATE_ABBR.contains (toUpperStr nn) then tier1Names code tl rest
    else if nn ≠ "" && containsSub tl (toLowerStr nn) then some code
    else tier1Names code tl rest

/-- Tier 1 of `detect_state_strict` (lines 85–91): full-name aliases from
the configured state table, in table order. -/
def tier1 (tl : String) : List (String × List String) → Option String
  | [] => none
  | (code, names) :: rest =>
    match tier1Names code tl names with
    | some c => some c
    | none => tier1 tl rest

/-- Tier 2 of `detect_state_strict` (lines 93–96): the first abbreviation
whose isolated-token regex matches the normalized text. -/
def tier2Abbr (t : String) : Option String :=
  STATE_ABBR.find? (fun ab => findAbbr ab t)

/-- Approximation of `urllib.parse.urlparse(u).netloc`: the host part after
`"//"` (directly or after a scheme prefix `…://`), up to the next `/`, `?`
or `#`; empty when the URL has no netloc. -/
def afterScheme : List Char → Option (List Char)
  | [] => none
  | ':' :: '/' :: '/' :: rest => some rest
  | ':' :: _ => none
  | _ :: rest => afterScheme rest

/-- See `afterScheme`. -/
def netlocOf (u : String) : String :=
  let cs := u.toList
  let rest := if cs.take 2 = ['/', '/'] then some (cs.drop 2) else afterScheme cs
  match rest with
  | none => ""
  | some r => String.mk (r.takeWhile (fun c => c ≠ '/' && c ≠ '?' && c ≠ '#'))

/-- Tier 3 of `detect_state_strict` (lines 98–111): domain hints on the
source URL host, then the fallback `"Global"`. -/
def domainHint (srcUrl : String) : String :=
  let host := toLowerStr (netlocOf srcUrl)
  if containsSub host "gov.georgia.gov" || containsSub host "georgia.org" then "GA"
  else if containsSub host "tnecd.com" then "TN"
  else if containsSub host "madeinalabama.com" then "AL"
  else if containsSub host "sccommerce.com" then "SC"
  else if containsSub host "floridajobs.org" then "FL"
  else "Global"

/-- `detect_state_strict` from `src/app.py` (lines 80–111), with the
module-level `states_cfg` (loaded from the external configuration file)
made an explicit parameter `statesCfg`. -/
def detect_state_strict (statesCfg : List (String × List String)) (text srcUrl : String) : String :=
  let t := norm_text text
  let tl := toLowerStr t
  match tier1 tl statesCfg with
  | some code => code
  | none =>
    match tier2Abbr t with
    | some ab => ab
    | none => domainHint srcUrl

/-! ### Company detection (`detect_company_from_title`) -/

/-- `TOP5_ALIASES` from `src/app.py` (lines 117–123), in the insertion
order of the Python dict. -/
def TOP5_ALIASES : List (String × List String) :=
  [("현대", ["현대", "현대차", "Hyundai", "기아", "Kia"]),
   ("SK", ["SK", "SK온", "SK hynix", "SK하이닉스", "하이닉스", "SK Innovation", "SK이노베이션"]),
   ("LG", ["LG", "LG에너지솔루션", "LG Energy Solution", "LG화학", "LG Chem"]),
   ("한화", ["한화", "Hanwha", "한화큐셀", "Qcells", "Q CELLS"]),
   ("고려아연", ["고려아연", "Korea Zinc", "KoreaZinc"])]

/-- `STOPWORDS` from `src/app.py` (lines 129–142). -/
def STOPWORDS : List String :=
  ["gov", "gov.", "governor", "office", "official", "statement", "commissioner", "deputy",
   "press", "release", "news", "department", "commerce", "economic", "development", "authority",
   "us", "u.s", "usa", "america", "american",
   "georgia", "tennessee", "alabama", "florida", "carolina", "south", "north",
   "미국", "한국", "조지아", "테네시", "앨라배마", "알라배마", "플로리다", "사우스캐롤라이나", "캐롤라이나",
   "주정부", "정부", "위원회", "경제개발", "카운티", "county", "city", "state",
   "invest", "investment", "invests", "announce", "announces", "announced",
   "expansion", "expand", "contract", "agreement", "facility", "plant", "factory",
   "투자", "공장", "설립", "증설", "확장", "진출", "계약", "수주", "공급", "체결", "협약"]

/-- The character class `[가-힣A-Za-z0-9&/.\-]` of the token regexes in
`detect_company_from_title`. -/
def isNameChar (c : Char) : Bool :=
  (('가' ≤ c) && (c ≤ '힣')) || (('A' ≤ c) && (c ≤ 'Z')) || (('a' ≤ c) && (c ≤ 'z')) ||
  (('0' ≤ c) && (c ≤ '9')) || c = '&' || c = '/' || c = '.' || c = '-'

/-- `re.findall(r"[가-힣A-Za-z0-9&/.\-]{2,40}", ·)`: non-overlapping greedy
matches, left to right, each of 2–40 class characters.  The fuel argument
(instantiated with the list length) only bounds the recursion; one
character is consumed per step, so it never runs out. -/
def findTokensFuel : Nat → List Char → List (List Char)
  | 0, _ => []
  | _, [] => []
  | fuel + 1, c :: rest =>
    if isNameChar c then
      let run := List.takeWhile isNameChar (c :: rest)
      if 2 ≤ run.length then
        let piece := run.take 40
        piece :: findTokensFuel fuel (List.drop piece.length (c :: rest))
      else findTokensFuel fuel rest
    else findTokensFuel fuel rest

/-- See `findTokensFuel`. -/
def findTokens (l : List Char) : List (List Char) :=
  findTokensFuel l.length l

/-- Python `str.strip(cs)`: remove characters of `cs` from both ends. -/
def stripChars (cs : List Char) (tok : List Char) : List Char :=
  ((tok.dropWhile (cs.contains ·)).reverse.dropWhile (cs.contains ·)).reverse

/-- The strip set `".,:-–—"` of tier 2 of `detect_company_from_title`. -/
def TIER2_STRIP : List Char := ['.', ',', ':', '-', '–', '—']

/-- The strip set of tier 3 of `detect_company_from_title`: period, comma,
colon, the dashes, parentheses, square brackets, braces, double quote and
apostrophe (the last four written via their code points). -/
def TIER3_STRIP : List Char :=
  ['.', ',', ':', '-', '–', '—', '(', ')', '[', ']',
   Char.ofNat 123, Char.ofNat 125, Char.ofNat 34, Char.ofNat 39]

/-- Tier 1 of `detect_company_from_title`: does any alias of this priority
company occur in the normalized title (`if a and a in t`)? -/
def aliasHit (t : String) (p : String × List String) : Bool :=
  p.2.any (fun a => a ≠ "" && containsSub t a)

/-- Tier 2 of `detect_company_from_title` (lines 154–160): the leading
token `^([가-힣A-Za-z0-9&/.\-]{2,40})`, stripped, accepted unless it is a
stop word or a bare English article. -/
def leadTok (t : String) : Option String :=
  let run := t.toList.takeWhile isNameChar
  if 2 ≤ run.length then
    let cand := String.mk (stripChars TIER2_STRIP (run.take 40))
    if cand ≠ "" && !STOPWORDS.contains (toLowerStr cand) &&
        !(["the", "a", "an"].contains (toLowerStr cand)) then
      some cand
    else none
  else none

/-- Tier 3 token cleaning (lines 163–171): all tokens, stripped of
punctuation, non-empty, not stop words. -/
def cleanedTokens (t : String) : List String :=
  (findTokens t.toList).filterMap (fun tok =>
    let tok2 := stripChars TIER3_STRIP tok
    if tok2 = [] then none
    else if STOPWORDS.contains (toLowerStr (String.mk tok2)) then none
    else some (String.mk tok2))

/-- The Korean business suffixes of `COMPANY_SUFFIX_HINT` (line 125). -/
def KO_SUFFIXES : List String :=
  ["중공업", "금속", "오토", "EPC", "전자", "에너지", "화학", "건설", "모빌리티",
   "테크", "산업", "소재", "전기", "바이오"]

/-- `COMPANY_SUFFIX_HINT.search(tok)`: the regex is anchored with `$`, so it
holds exactly when the token ends with one of the suffixes. -/
def hasSuffixHint (tok : String) : Bool :=
  KO_SUFFIXES.any (fun sfx => sfx.toList.isSuffixOf tok.toList)

/-- The English corporate suffixes of tier 3-2 (line 180), lowercased; the
regex is case-insensitive and `$`-anchored. -/
def EN_SUFFIXES : List String :=
  ["inc.", "inc", "llc", "l.l.c.", "corp.", "corp", "corporation", "co.", "co", "company"]

/-- See `EN_SUFFIXES`. -/
def hasEnSuffix (tok : String) : Bool :=
  EN_SUFFIXES.any (fun sfx => sfx.toList.isSuffixOf (toLowerStr tok).toList)

/-- `detect_company_from_title` from `src/app.py` (lines 145–187). -/
def detect_company_from_title (title : String) : String :=
  let t := norm_text title
  match (TOP5_ALIASES.find? (aliasHit t)).map (fun p => p.1) with
  | some canon => canon
  | none =>
    match leadTok t with
    | some cand => cand
    | none =>
      let cleaned := cleanedTokens t
      match cleaned.find? hasSuffixHint with
      | some tok => tok
      | none =>
        match cleaned.find? hasEnSuffix with
        | some tok => tok
        | none =>
          match cleaned with
          | tok :: _ => tok
          | [] => "미확인"

/-! ### Tag classification and importance scoring -/

/-- `INVEST_EN` from `src/app.py` (line 197). -/
def INVEST_EN : List String :=
  ["invest", "investment", "plant", "facility", "expansion", "factory", "site",
   "build", "construct", "manufacturing"]

/-- `INVEST_KO` (line 198). -/
def INVEST_KO : List String := ["투자", "공장", "설립", "증설", "확장", "진출", "신규"]

/-- `DEAL_EN` (line 199). -/
def DEAL_EN : List String := ["contract", "deal", "supply", "agreement", "award", "wins", "signed"]

/-- `DEAL_KO` (line 200). -/
def DEAL_KO : List String := ["수주", "계약", "공급", "체결", "협약", "파트너십"]

/-- `CAPITAL_KO` (line 201). -/
def CAPITAL_KO : List String := ["증자", "출자", "공시"]

/-- `SALES_KO` (line 202). -/
def SALES_KO : List String := ["판매", "기록", "돌파", "매출", "실적"]

/-- `any(k in t for k in ks)`. -/
def anyIn (ks : List String) (t : String) : Bool :=
  ks.any (fun k => containsSub t k)

/-- `classify_tag` from `src/app.py` (lines 205–215): Korean keywords are
matched against the raw text, English keywords against its lowercase. -/
def classify_tag (text : String) : String :=
  let tl := toLowerStr text
  if anyIn INVEST_KO text || anyIn INVEST_EN tl then "[신규 투자]"
  else if anyIn DEAL_KO text || anyIn DEAL_EN tl then "[수주/계약]"
  else if anyIn CAPITAL_KO text then "[자본/공시]"
  else if anyIn SALES_KO text then "[실적/판매]"
  else "[주요]"

/-- `importance_score` from `src/app.py` (lines 218–233), with the
module-level `priority_companies` (loaded from the external configuration)
made an explicit parameter.  There is no provenance term in this function:
the score is the priority-membership weight plus the tag weight. -/
def importance_score (priorityCompanies : List String) (title companyPlain : String) : Nat :=
  let base := if companyPlain ∈ priorityCompanies then 100 else 0
  let tag := classify_tag title
  base + (if tag = "[신규 투자]" then 35
    else if tag = "[수주/계약]" then 25
    else if tag = "[자본/공시]" then 20
    else if tag = "[실적/판매]" then 15
    else 5)

/-! ### Similarity deduplication (`jaccard`, `dedup_similar`) -/

/-- `SIMILARITY_THRESHOLD` from `src/app.py` (line 27), as an exact
rational (the Python float literal `0.86` denotes the nearest double to
86/100; at the set sizes the pipeline handles the comparison against it
coincides with the exact one). -/
def SIMILARITY_THRESHOLD : ℚ := 86 / 100

/-- `jaccard` from `src/app.py` (lines 250–257), on token sets, with exact
rational arithmetic in place of floats. -/
def jaccard (a b : Finset String) : ℚ :=
  if a = ∅ ∧ b = ∅ then 1
  else if a = ∅ ∨ b = ∅ then 0
  else
    let inter := (a ∩ b).card
    let union := (a ∪ b).card
    if union = 0 then 0 else (inter : ℚ) / (union : ℚ)

/-- A row as consumed by `dedup_similar`: the sort timestamp `_when_sort`
(as an integer timestamp), the importance `_score`, and the title signature
`_sig`. -/
structure DRow where
  whenSort : Int
  score : Int
  sig : Finset String
deriving DecidableEq

/-- Descending lexicographic order on `(_when_sort, _score)`: `a` ranks at
least as high as `b`. -/
def rankGE (a b : DRow) : Prop :=
  b.whenSort < a.whenSort ∨ (b.whenSort = a.whenSort ∧ b.score ≤ a.score)

instance : DecidableRel rankGE := fun a b => by
  unfold rankGE
  infer_instance

/-- `sorted(rows, key=lambda r: (r["_when_sort"], r["_score"]), reverse=True)`:
a stable descending sort on the pair key (insertion sort is stable, like
the Python sort). -/
def sortRows (rows : List DRow) : List DRow :=
  List.insertionSort rankGE rows

/-- The inner duplicate test of `dedup_similar`: is `r` similar (at or
above the threshold) to some already-kept row? -/
def isDup (kept : List DRow) (r : DRow) : Bool :=
  kept.any (fun k => decide (SIMILARITY_THRESHOLD ≤ jaccard r.sig k.sig))

/-- The accumulation loop of `dedup_similar` (lines 265–274). -/
def dedupGo (kept : List DRow) : List DRow → List DRow
  | [] => kept
  | r :: rest =>
    if isDup kept r then dedupGo kept rest
    else dedupGo (kept ++ [r]) rest

/-- `dedup_similar` from `src/app.py` (lines 260–276). -/
def dedup_similar (rows : List DRow) : List DRow :=
  dedupGo [] (sortRows rows)

/-! ### Date resolution (`safe_parse_date` and the fetch-stage date logic) -/

/-- A Python `datetime` as far as the pipeline observes it: a calendar date
plus an optional `tzinfo` (modelled as a UTC offset in seconds; `some 0` is
`timezone.utc`). -/
structure PyDT where
  year : Nat
  month : Nat
  day : Nat
  tz : Option Int
deriving DecidableEq, Repr

/-- `safe_parse_date` from `src/app.py` (lines 56–65).  The external
permissive parser `dateutil.parser.parse` is an explicit parameter
`oracle`; `oracle s = none` covers both an exception (caught by the
`except` clause) and a `None` result (rejected by the `if dt` guard). -/
def safe_parse_date (oracle : String → Option PyDT) (s : String) : Option PyDT :=
  if s = "" then none
  else
    match oracle s with
    | none => none
    | some dt => if dt.tz = none then some ⟨dt.year, dt.month, dt.day, some 0⟩ else some dt

/-- `DOT_DATE_RX.fullmatch` (line 284 and line 557): the whole string is
`\d{2}\.\d{2}\.\d{4}` (the surrounding `\b` anchors hold trivially at the
ends of the string). -/
def isDotDate (s : String) : Bool :=
  match s.toList with
  | [a, b, c, d, e, f, g, h, i, j] =>
    a.isDigit && b.isDigit && (c = '.') && d.isDigit && e.isDigit && (f = '.') &&
    g.isDigit && h.isDigit && i.isDigit && j.isDigit
  | _ => false

/-- Python `str.split(".")` accumulator. -/
def splitDotAux (cur : List Char) : List Char → List (List Char)
  | [] => [cur.reverse]
  | c :: rest => if c = '.' then cur.reverse :: splitDotAux [] rest else splitDotAux (c :: cur) rest

/-- Python `str.split(".")`. -/
def splitDot (l : List Char) : List (List Char) :=
  splitDotAux [] l

/-- The date-resolution step of `fetch_us_gov_only` (lines 553–564): a
missing or empty date text yields no timestamp; a text fully matching the
`MM.DD.YYYY` regex is split and rearranged to `YYYY-MM-DD` before the
generic parse (the non-3-part case of the `match` models the `except`
around the unpacking, which the regex makes unreachable); any other text
goes to the generic parse directly. -/
def resolveDate (oracle : String → Option PyDT) (dateText : Option String) : Option PyDT :=
  match dateText with
  | none => none
  | some s =>
    if s = "" then none
    else if isDotDate s then
      match splitDot s.toList with
      | [mm, dd, yyyy] =>
        safe_parse_date oracle (String.mk yyyy ++ "-" ++ String.mk mm ++ "-" ++ String.mk dd)
      | _ => none
    else safe_parse_date oracle s

/-- A concrete stand-in for the external permissive parser, used to
instantiate the date-resolution theorems: it recognizes exactly the ISO
string `"2026-02-04"` (as a timezone-naive datetime). -/
def oracleIso : String → Option PyDT :=
  fun s => if s = "2026-02-04" then some ⟨2026, 2, 4, none⟩ else none

/-! ### The ranking sort key for undated records -/

/-- The sort-key computation of `fetch_us_gov_only` (lines 573–576), on
integer timestamps (seconds): a parsed date gives its own timestamp
(`pd.to_datetime` of a parsed datetime is never `NaT`); a missing one gives
`pd.Timestamp.now(tz="UTC") - pd.Timedelta(days=3650)`. -/
def whenSortKey (dt : Option Int) (now : Int) : Int :=
  match dt with
  | some t => t
  | none => now - 3650 * 86400

/-! ### Identity hashing (`make_id`): SHA-256 over the `||`-joined triple -/

/-- 32-bit truncation. -/
def w32 (x : Nat) : Nat := x % 4294967296

/-- 32-bit right rotation. -/
def rotr32 (n x : Nat) : Nat := w32 ((x >>> n) ||| (x <<< (32 - n)))

/-- SHA-256 `Ch`. -/
def shaCh (x y z : Nat) : Nat := (x &&& y) ^^^ ((w32 (2 ^ 32 - 1 - x)) &&& z)

/-- SHA-256 `Maj`. -/
def shaMaj (x y z : Nat) : Nat := (x &&& y) ^^^ (x &&& z) ^^^ (y &&& z)

/-- SHA-256 `Σ₀`. -/
def bigSigma0 (x : Nat) : Nat := rotr32 2 x ^^^ rotr32 13 x ^^^ rotr32 22 x

/-- SHA-256 `Σ₁`. -/
def bigSigma1 (x : Nat) : Nat := rotr32 6 x ^^^ rotr32 11 x ^^^ rotr32 25 x

/-- SHA-256 `σ₀`. -/
def smallSigma0 (x : Nat) : Nat := rotr32 7 x ^^^ rotr32 18 x ^^^ (x >>> 3)

/-- SHA-256 `σ₁`. -/
def smallSigma1 (x : Nat) : Nat := rotr32 17 x ^^^ rotr32 19 x ^^^ (x >>> 10)

/-- The 64 SHA-256 round constants. -/
def shaK : List Nat :=
  [1116352408, 1899447441, 3049323471, 3921009573, 961987163,
   1508970993, 2453635748, 2870763221, 3624381080, 310598401,
   607225278, 1426881987, 1925078388, 2162078206, 2614888103,
   3248222580, 3835390401, 4022224774, 264347078, 604807628,
   770255983, 1249150122, 1555081692, 1996064986, 2554220882,
   2821834349, 2952996808, 3210313671, 3336571891, 3584528711,
   113926993, 338241895, 666307205, 773529912, 1294757372,
   1396182291, 1695183700, 1986661051, 2177026350, 2456956037,
   2730485921, 2820302411, 3259730800, 3345764771, 3516065817,
   3600352804, 4094571909, 275423344, 430227734, 506948616,
   659060556, 883997877, 958139571, 1322822218, 1537002063,
   1747873779, 1955562222, 2024104815, 2227730452, 2361852424,
   2428436474, 2756734187, 3204031479, 3329325298]

/-- The SHA-256 initial hash value. -/
def shaH0 : List Nat :=
  [1779033703, 3144134277, 1013904242,
   2773480762, 1359893119, 2600822924,
   528734635, 1541459225]

/-- Big-endian length padding: 8 bytes of the bit length. -/
def lenBytes (bitlen : Nat) : List Nat :=
  (List.range 8).map (fun i => (bitlen >>> (8 * (7 - i))) % 256)

/-- SHA-256 message padding: `0x80`, zeros to 56 mod 64, 8 length bytes. -/
def sha256pad (msg : List Nat) : List Nat :=
  let z := (64 + 56 - (msg.length + 1) % 64) % 64
  msg ++ [0x80] ++ List.replicate z 0 ++ lenBytes (msg.length * 8)

/-- Split a byte stream into 64-byte blocks (the stream length is a
multiple of 64 after padding, so nothing is left over). -/
def chunk64Step (st : List (List Nat) × List Nat) (b : Nat) : List (List Nat) × List Nat :=
  let cur := st.2 ++ [b]
  if cur.length = 64 then (st.1 ++ [cur], []) else (st.1, cur)

/-- See `chunk64Step`. -/
def chunks64 (l : List Nat) : List (List Nat) :=
  (l.foldl chunk64Step ([], [])).1

/-- 16 big-endian 32-bit words from a 64-byte block. -/
def blockWords (block : List Nat) : List Nat :=
  (List.range 16).map (fun i =>
    block.getD (4 * i) 0 * 16777216 + block.getD (4 * i + 1) 0 * 65536 +
    block.getD (4 * i + 2) 0 * 256 + block.getD (4 * i + 3) 0)

/-- Message-schedule extension to 64 words. -/
def schedule (ws : List Nat) : List Nat :=
  (List.range 48).foldl
    (fun w _ =>
      let j := w.length
      w ++ [w32 (smallSigma1 (w.getD (j - 2) 0) + w.getD (j - 7) 0 +
        smallSigma0 (w.getD (j - 15) 0) + w.getD (j - 16) 0)])
    ws

/-- The eight working variables of the compression loop. -/
structure ShaState where
  a : Nat
  b : Nat
  c : Nat
  d : Nat
  e : Nat
  f : Nat
  g : Nat
  h : Nat

/-- One round of the SHA-256 compression loop. -/
def compressStep (st : ShaState) (kw : Nat × Nat) : ShaState :=
  let t1 := w32 (st.h + bigSigma1 st.e + shaCh st.e st.f st.g + kw.1 + kw.2)
  let t2 := w32 (bigSigma0 st.a + shaMaj st.a st.b st.c)
  ⟨w32 (t1 + t2), st.a, st.b, st.c, w32 (st.d + t1), st.e, st.f, st.g⟩

/-- Compress one 64-byte block into the running hash. -/
def compressBlock (hs : List Nat) (block : List Nat) : List Nat :=
  let ws := schedule (blockWords block)
  let st0 : ShaState :=
    ⟨hs.getD 0 0, hs.getD 1 0, hs.getD 2 0, hs.getD 3 0,
     hs.getD 4 0, hs.getD 5 0, hs.getD 6 0, hs.getD 7 0⟩
  let st := (ws.zip shaK).foldl compressStep st0
  [w32 (hs.getD 0 0 + st.a), w32 (hs.getD 1 0 + st.b), w32 (hs.getD 2 0 + st.c),
   w32 (hs.getD 3 0 + st.d), w32 (hs.getD 4 0 + st.e), w32 (hs.getD 5 0 + st.f),
   w32 (hs.getD 6 0 + st.g), w32 (hs.getD 7 0 + st.h)]

/-- SHA-256 of a byte stream, as 32 digest bytes. -/
def sha256bytes (msg : List Nat) : List Nat :=
  let hs := (chunks64 (sha256pad msg)).foldl compressBlock shaH0
  (hs.map (fun w => [(w >>> 24) % 256, (w >>> 16) % 256, (w >>> 8) % 256, w % 256])).flatten

/-- UTF-8 encoding of one character (`str.encode("utf-8")`). -/
def utf8Char (c : Char) : List Nat :=
  let n := c.toNat
  if n < 128 then [n]
  else if n < 2048 then [192 + (n >>> 6), 128 + (n &&& 63)]
  else if n < 65536 then [224 + (n >>> 12), 128 + ((n >>> 6) &&& 63), 128 + (n &&& 63)]
  else [240 + (n >>> 18), 128 + ((n >>> 12) &&& 63), 128 + ((n >>> 6) &&& 63), 128 + (n &&& 63)]

/-- UTF-8 encoding of a string. -/
def utf8Bytes (s : String) : List Nat :=
  (s.toList.map utf8Char).flatten

/-- One lowercase hex digit. -/
def hexChar (n : Nat) : Char :=
  if n < 10 then Char.ofNat (48 + n) else Char.ofNat (87 + n)

/-- `hexdigest()`: the digest bytes in lowercase hex. -/
def hexDigest (bytes : List Nat) : String :=
  String.mk ((bytes.map (fun b => [hexChar (b / 16), hexChar (b % 16)])).flatten)

/-- The raw string hashed by `make_id` (line 69):
`f"{provider}||{norm_text(title)}||{norm_text(url)}"`. -/
def makeRaw (provider title url : String) : String :=
  provider ++ "||" ++ norm_text title ++ "||" ++ norm_text url

/-- `make_id` from `src/app.py` (lines 68–70). -/
def make_id (provider title url : String) : String :=
  hexDigest (sha256bytes (utf8Bytes (makeRaw provider title url)))

/-! ### Top-per-company selection (`pick_top_company_one_each`) -/

/-- `TOP_COMPANY_MAX` from `src/app.py` (line 24). -/
def TOP_COMPANY_MAX : Nat := 10

/-- A display row as consumed by `pick_top_company_one_each`: the
`기업명` display string (icon plus plain name) and the global sort key
(`_when_sort`, `_score`) the dataframe is ordered by. -/
structure TRow where
  whenSort : Int
  score : Int
  company : String
deriving DecidableEq

/-- `plain_company` from `src/app.py` (lines 621–622): drop the two icon
characters, then `norm_text`. -/
def plain_company (displayName : String) : String :=
  norm_text (String.mk ((displayName.toList.filter (fun c => c ≠ '👑')).filter (fun c => c ≠ '💎')))

/-- The `_plain` column of `pick_top_company_one_each`. -/
def rowPlain (r : TRow) : String := plain_company r.company

/-- Descending lexicographic order on `(_when_sort, _score)` for display
rows: `a` ranks at least as high as `b`. -/
def rankGeT (a b : TRow) : Prop :=
  b.whenSort < a.whenSort ∨ (b.whenSort = a.whenSort ∧ b.score ≤ a.score)

instance : DecidableRel rankGeT := fun a b => by
  unfold rankGeT
  infer_instance

/-- `groupby("_plain").head(1)`: keep, in dataframe order, only the first
row of each `_plain` value; `seen` is the set of values already emitted. -/
def firstPerPlain (seen : List String) : List TRow → List TRow
  | [] => []
  | r :: rest =>
    if rowPlain r ∈ seen then firstPerPlain seen rest
    else r :: firstPerPlain (rowPlain r :: seen) rest

/-- The index of the last occurrence of `p` in `tops` (the Python dict
comprehension `{c: i for i, c in enumerate(top_companies)}` keeps the last
index of a duplicated name). -/
def lastIdxOf (p : String) : List String → Option Nat
  | [] => none
  | t :: rest =>
    match lastIdxOf p rest with
    | some i => some (i + 1)
    | none => if t = p then some 0 else none

/-- `order.get(x, 9999)` of `pick_top_company_one_each` (line 639). -/
def orderVal (tops : List String) (p : String) : Nat :=
  (lastIdxOf p tops).getD 9999

/-- The `sort_values("_order")` relation: ascending priority-list position
of the plain company name. -/
def topOrder (tops : List String) (a b : TRow) : Prop :=
  orderVal tops (rowPlain a) ≤ orderVal tops (rowPlain b)

instance (tops : List String) : DecidableRel (topOrder tops) := fun a b => by
  unfold topOrder
  infer_instance

/-- `pick_top_company_one_each` from `src/app.py` (lines 625–642): filter
to rows whose plain company is in the priority list, keep the first
dataframe row per company, sort by priority-list position (the keys are
distinct at this point, so any correct sort gives the Python result), and
cap at `TOP_COMPANY_MAX`. -/
def pick_top_company_one_each (rows : List TRow) (tops : List String) : List TRow :=
  let top := rows.filter (fun r => decide (rowPlain r ∈ tops))
  let one := firstPerPlain [] top
  (List.insertionSort (topOrder tops) one).take TOP_COMPANY_MAX

/-- The character immediately before the suffix being scanned: the last
character of `pre` if any, else the character before the whole suffix. -/
def lastOr (pre : List Char) (prev : Option Char) : Option Char :=
  match pre.getLast? with
  | some c => some c
  | none => prev

/-- The configuration with every alias whose normalized uppercase form is a
two-letter state abbreviation removed. -/
def dropAbbrAliases (cfg : List (String × List String)) : List (String × List String) :=
  cfg.map (fun p => (p.1, p.2.filter (fun n => !STATE_ABBR.contains (toUpperStr (norm_text n)))))

/-- Rows with an empty title signature. -/
def hasEmptySig (r : DRow) : Bool := decide (r.sig = ∅)

/-- The pairwise-dissimilarity relation maintained by `dedup_similar`. -/
def dissimilar (a b : DRow) : Prop :=
  jaccard a.sig b.sig < SIMILARITY_THRESHOLD ∧ jaccard b.sig a.sig < SIMILARITY_THRESHOLD

/-! ## Theorems -/

/-! ### C1: priority membership strictly dominates every tag weight -/

/-- The tag contribution of `importance_score` is one of 35/25/20/15/5; in
particular it lies between 5 and 35. -/
theorem tag_term_bounds (tag : String) :
    5 ≤ (if tag = "[신규 투자]" then 35
      else if tag = "[수주/계약]" then 25
      else if tag = "[자본/공시]" then 20
      else if tag = "[실적/판매]" then 15
      else (5 : Nat)) ∧
    (if tag = "[신규 투자]" then 35
      else if tag = "[수주/계약]" then 25
      else if tag = "[자본/공시]" then 20
      else if tag = "[실적/판매]" then 15
      else (5 : Nat)) ≤ 35 := by
  split_ifs <;> omega

/-- Claim C1: for every pair of titles, a record whose detected company is
in the priority list scores strictly higher under `importance_score` than
any record whose company is not, regardless of the tags the titles match.
(The minimum priority score is 100 + 5 = 105; the maximum non-priority
score is 0 + 35 = 35.  `importance_score` adds no provenance term, so the
provenance bonus is 0 and never exceeds any tag weight.) -/
theorem importance_priority_dominates (priorityCompanies : List String)
    (t1 t2 c1 c2 : String) (h1 : c1 ∈ priorityCompanies) (h2 : c2 ∉ priorityCompanies) :
    importance_score priorityCompanies t2 c2 < importance_score priorityCompanies t1 c1 := by
  unfold importance_score
  have b1 := tag_term_bounds (classify_tag t1)
  have b2 := tag_term_bounds (classify_tag t2)
  simp only [if_pos h1, if_neg h2]
  omega

/-- Witness for C1 at concrete inputs. -/
theorem importance_priority_dominates_witness :
    importance_score ["현대"] "factory expansion" "기타회사" <
      importance_score ["현대"] "아무 제목" "현대" :=
  importance_priority_dominates ["현대"] "아무 제목" "factory expansion" "현대" "기타회사"
    (by decide) (by decide)

/-! ### C3: the sort key of undated records -/

/-- Counterexample for C3: a record whose date parsed to a timestamp more
than 3650 days before the fetch time sorts strictly *below* an undated
record, so the undated sort key is not older than every parsed one. -/
theorem when_sort_not_oldest :
    whenSortKey (some (-315360001)) 0 < whenSortKey none 0 ∧
    ¬ whenSortKey none 0 < whenSortKey (some (-315360001)) 0 := by
  constructor <;> decide

/-- Claim C3 as amended: every record is kept with a present (total) sort
key; the undated fallback key `now − 3650 days` is strictly older than the
key of every record whose parsed timestamp lies within the 3650 days
before the fetch time, so such dated records sort above all undated
ones. -/
theorem when_sort_fallback_older (now t : Int) (h : now - 3650 * 86400 < t) :
    whenSortKey none now < whenSortKey (some t) now := by
  simpa [whenSortKey] using h

/-- Witness for the amended C3 theorem at concrete inputs. -/
theorem when_sort_fallback_older_witness :
    whenSortKey none 0 < whenSortKey (some 1) 0 :=
  when_sort_fallback_older 0 1 (by decide)

/-! ### C2: boundaries of the abbreviation tier -/

theorem lastOr_cons (c : Char) (pre : List Char) (prev : Option Char) :
    lastOr (c :: pre) prev = lastOr pre (some c) := by
  cases pre with
  | nil => simp [lastOr]
  | cons d l => simp [lastOr, List.getLast?]

theorem isPrefixL_eq_true_iff (p : List Char) :
    ∀ l, isPrefixL p l = true ↔ ∃ t, l = p ++ t := by
  induction p with
  | nil => intro l; simp [isPrefixL]
  | cons a xs ih =>
    intro l
    cases l with
    | nil => simp [isPrefixL]
    | cons b ys =>
      simp only [isPrefixL, Bool.and_eq_true, decide_eq_true_eq, ih, List.cons_append,
        List.cons.injEq]
      constructor
      · rintro ⟨rfl, t, rfl⟩
        exact ⟨t, rfl, rfl⟩
      · rintro ⟨t, rfl, rfl⟩
        exact ⟨rfl, t, rfl⟩

theorem findAbbrAux_sound (ab : List Char) :
    ∀ (l : List Char) (prev : Option Char), findAbbrAux ab prev l = true →
      ∃ pre post, l = pre ++ ab ++ post ∧ prevOk (lastOr pre prev) = true ∧ nextOk post = true := by
  intro l
  induction l with
  | nil => intro prev h; simp [findAbbrAux] at h
  | cons c rest ih =>
    intro prev h
    simp only [findAbbrAux, Bool.or_eq_true, Bool.and_eq_true] at h
    rcases h with ⟨hprev, hat⟩ | hrec
    · simp only [abbrAt, Bool.and_eq_true] at hat
      obtain ⟨hpre, hnext⟩ := hat
      obtain ⟨t, ht⟩ := (isPrefixL_eq_true_iff ab (c :: rest)).mp hpre
      refine ⟨[], t, by simpa using ht, by simpa [lastOr] using hprev, ?_⟩
      have : (c :: rest).drop ab.length = t := by rw [ht]; exact List.drop_left ab t
      rwa [this] at hnext
    · obtain ⟨pre, post, hl, hok, hnext⟩ := ih (some c) hrec
      exact ⟨c :: pre, post, by simp [hl], by rwa [lastOr_cons], hnext⟩

/-- Counterexample for C2: in `"xGAx"` the abbreviation `GA` occurs only
adjacent to (lowercase) letters, yet the abbreviation tier matches it and
`detect_state_strict` returns `"GA"` (tier 1 is empty here and the source
URL carries no domain hint, so the result comes from tier 2). -/
theorem abbr_lowercase_adjacent_matches :
    detect_state_strict [] "xGAx" "u" = "GA" ∧
    findAbbr "GA" (norm_text "xGAx") = true ∧
    (norm_text "xGAx").toList = ['x', 'G', 'A', 'x'] := by
  refine ⟨by decide, by decide, by decide⟩

/-- Claim C2 as amended: the abbreviation tier matches only at an
occurrence of the abbreviation that is not adjacent to an *uppercase*
letter or digit on either side (lowercase neighbours do not block a
match), and the tier is consulted only after every full-name alias of
tier 1 has failed. -/
theorem abbr_match_needs_nonupper_boundary :
    (∀ ab t : String, findAbbr ab t = true →
      ∃ pre post, t.toList = pre ++ ab.toList ++ post ∧
        prevOk pre.getLast? = true ∧ nextOk post = true) ∧
    (∀ (statesCfg : List (String × List String)) (t u c : String),
      tier1 (toLowerStr (norm_text t)) statesCfg = some c →
      detect_state_strict statesCfg t u = c) := by
  constructor
  · intro ab t h
    obtain ⟨pre, post, hl, hok, hnext⟩ := findAbbrAux_sound ab.toList t.toList none h
    refine ⟨pre, post, hl, ?_, hnext⟩
    rwa [show lastOr pre none = pre.getLast? from by cases hpre : pre.getLast? <;>
      simp [lastOr, hpre]] at hok
  · intro statesCfg t u c h
    simp only [detect_state_strict]
    rw [h]

/-- Witness for the amended C2 theorem at concrete inputs. -/
theorem abbr_match_needs_nonupper_boundary_witness :
    (∃ pre post, ("plant in GA now").toList = pre ++ ("GA").toList ++ post ∧
      prevOk pre.getLast? = true ∧ nextOk post = true) ∧
    detect_state_strict [("GA", ["Georgia"])] "Georgia site" "u" = "GA" :=
  ⟨by
    have h := abbr_match_needs_nonupper_boundary.1 "GA" "plant in GA now" (by decide)
    simpa using h,
   abbr_match_needs_nonupper_boundary.2 [("GA", ["Georgia"])] "Georgia site" "u" "GA" (by decide)⟩

/-! ### C10: aliases equal to an abbreviation are skipped in tier 1 -/

theorem tier1Names_dropAbbr (code tl : String) (names : List String) :
    tier1Names code tl names =
      tier1Names code tl (names.filter (fun n => !STATE_ABBR.contains (toUpperStr (norm_text n)))) := by
  induction names with
  | nil => rfl
  | cons n rest ih =>
    by_cases h : toUpperStr (norm_text n) ∈ STATE_ABBR
    · simp [tier1Names, h, List.filter_cons, ih]
    · simp [tier1Names, h, List.filter_cons, ih]

/-- Claim C10: an alias that itself equals a two-letter state abbreviation
(after normalization, case-insensitively) contributes nothing to tier 1 —
removing all such aliases changes neither the tier-1 result nor the final
result of `detect_state_strict` — so such an alias can only ever take
effect through the later isolated-token abbreviation tier. -/
theorem abbr_aliases_skipped_in_tier1 (cfg : List (String × List String)) :
    (∀ tl, tier1 tl cfg = tier1 tl (dropAbbrAliases cfg)) ∧
    (∀ t u, detect_state_strict cfg t u = detect_state_strict (dropAbbrAliases cfg) t u) := by
  have h1 : ∀ tl, tier1 tl cfg = tier1 tl (dropAbbrAliases cfg) := by
    intro tl
    induction cfg with
    | nil => rfl
    | cons p rest ih =>
      obtain ⟨code, names⟩ := p
      simp only [dropAbbrAliases, List.map_cons, tier1, ← tier1Names_dropAbbr]
      cases tier1Names code tl names with
      | none => simpa [dropAbbrAliases] using ih
      | some c => rfl
  refine ⟨h1, fun t u => ?_⟩
  simp only [detect_state_strict, h1]

/-! ### C8: one record per priority company, in priority order -/

theorem firstPerPlain_sublist :
    ∀ (l : List TRow) (seen : List String), (firstPerPlain seen l).Sublist l := by
  intro l
  induction l with
  | nil => intro seen; simp [firstPerPlain]
  | cons r rest ih =>
    intro seen
    by_cases h : rowPlain r ∈ seen
    · simpa [firstPerPlain, h] using (ih seen).cons r
    · simpa [firstPerPlain, h] using (ih (rowPlain r :: seen)).cons₂ r

theorem firstPerPlain_not_seen :
    ∀ (l : List TRow) (seen : List String) (r : TRow),
      r ∈ firstPerPlain seen l → rowPlain r ∉ seen := by
  intro l
  induction l with
  | nil => intro seen r h; simp [firstPerPlain] at h
  | cons x rest ih =>
    intro seen r h
    by_cases hx : rowPlain x ∈ seen
    · exact ih seen r (by simpa [firstPerPlain, hx] using h)
    · simp only [firstPerPlain, if_neg hx, List.mem_cons] at h
      rcases h with rfl | h
      · exact hx
      · have := ih (rowPlain x :: seen) r h
        exact fun hmem => this (by simp [hmem])

theorem firstPerPlain_pairwise_ne :
    ∀ (l : List TRow) (seen : List String),
      List.Pairwise (fun a b => rowPlain a ≠ rowPlain b) (firstPerPlain seen l) := by
  intro l
  induction l with
  | nil => intro seen; simp [firstPerPlain]
  | cons x rest ih =>
    intro seen
    by_cases hx : rowPlain x ∈ seen
    · simpa [firstPerPlain, hx] using ih seen
    · simp only [firstPerPlain, if_neg hx, List.pairwise_cons]
      refine ⟨fun s hs => ?_, ih (rowPlain x :: seen)⟩
      have := firstPerPlain_not_seen rest (rowPlain x :: seen) s hs
      exact fun hcon => this (by simp [hcon])

theorem firstPerPlain_first_occurrence :
    ∀ (l : List TRow) (seen : List String) (r : TRow), r ∈ firstPerPlain seen l →
      ∃ pre post, l = pre ++ r :: post ∧ ∀ s ∈ pre, rowPlain s ≠ rowPlain r := by
  intro l
  induction l with
  | nil => intro seen r h; simp [firstPerPlain] at h
  | cons x rest ih =>
    intro seen r h
    by_cases hx : rowPlain x ∈ seen
    · have h' : r ∈ firstPerPlain seen rest := by simpa [firstPerPlain, hx] using h
      obtain ⟨pre, post, heq, hpre⟩ := ih seen r h'
      have hr : rowPlain r ∉ seen := firstPerPlain_not_seen rest seen r h'
      refine ⟨x :: pre, post, by simp [heq], ?_⟩
      intro s hs
      rcases List.mem_cons.mp hs with rfl | hs'
      · exact fun hcon => hr (hcon ▸ hx)
      · exact hpre s hs'
    · simp only [firstPerPlain, if_neg hx, List.mem_cons] at h
      rcases h with rfl | h'
      · exact ⟨[], rest, rfl, by simp⟩
      · obtain ⟨pre, post, heq, hpre⟩ := ih (rowPlain x :: seen) r h'
        have hr : rowPlain r ∉ rowPlain x :: seen :=
          firstPerPlain_not_seen rest (rowPlain x :: seen) r h'
        refine ⟨x :: pre, post, by simp [heq], ?_⟩
        intro s hs
        rcases List.mem_cons.mp hs with rfl | hs'
        · exact fun hcon => hr (by simp [hcon])
        · exact hpre s hs'

theorem rankGeT_refl (r : TRow) : rankGeT r r :=
  Or.inr ⟨rfl, le_refl _⟩

/-- Claim C8: on an input already in global (recency-descending,
score-descending) sort order, `pick_top_company_one_each` returns at most
`TOP_COMPANY_MAX` (= 10) rows, ordered by the position of the company in the
priority list, with pairwise-distinct companies, and each returned row is
an input row whose company is in the priority list and which ranks at
least as high as every input row of the same company. -/
theorem pick_top_company_one_each_spec (rows : List TRow) (tops : List String)
    (hsorted : List.Pairwise rankGeT rows) :
    (pick_top_company_one_each rows tops).length ≤ TOP_COMPANY_MAX ∧
    List.Pairwise (topOrder tops) (pick_top_company_one_each rows tops) ∧
    List.Pairwise (fun a b => rowPlain a ≠ rowPlain b) (pick_top_company_one_each rows tops) ∧
    (∀ r ∈ pick_top_company_one_each rows tops,
      r ∈ rows ∧ rowPlain r ∈ tops ∧ ∀ s ∈ rows, rowPlain s = rowPlain r → rankGeT r s) := by
  haveI htot : IsTotal TRow (topOrder tops) := ⟨fun a b => Nat.le_total _ _⟩
  haveI htrans : IsTrans TRow (topOrder tops) := ⟨fun a b c => Nat.le_trans⟩
  have hmemsort : ∀ r, r ∈ List.insertionSort (topOrder tops)
      (firstPerPlain [] (rows.filter (fun r => decide (rowPlain r ∈ tops)))) ↔
      r ∈ firstPerPlain [] (rows.filter (fun r => decide (rowPlain r ∈ tops))) :=
    fun r => (List.perm_insertionSort (topOrder tops) _).mem_iff
  refine ⟨?_, ?_, ?_, ?_⟩
  · exact List.length_take_le _ _
  · exact List.Pairwise.sublist (List.take_sublist _ _) (List.sorted_insertionSort _ _)
  · refine List.Pairwise.sublist (List.take_sublist _ _) ?_
    exact ((List.perm_insertionSort (topOrder tops) _).pairwise_iff
      (fun h => Ne.symm h)).mpr (firstPerPlain_pairwise_ne _ [])
  · intro r hr
    have hr1 : r ∈ firstPerPlain [] (rows.filter (fun r => decide (rowPlain r ∈ tops))) :=
      (hmemsort r).mp ((List.take_sublist _ _).subset hr)
    have hrtop : r ∈ rows.filter (fun r => decide (rowPlain r ∈ tops)) :=
      (firstPerPlain_sublist _ []).subset hr1
    have hrrows : r ∈ rows := (List.mem_filter.mp hrtop).1
    have hrtops : rowPlain r ∈ tops := of_decide_eq_true (List.mem_filter.mp hrtop).2
    refine ⟨hrrows, hrtops, ?_⟩
    intro s hs hsplain
    obtain ⟨pre, post, heq, hpre⟩ := firstPerPlain_first_occurrence _ [] r hr1
    have hstop : s ∈ rows.filter (fun r => decide (rowPlain r ∈ tops)) :=
      List.mem_filter.mpr ⟨hs, decide_eq_true (hsplain ▸ hrtops)⟩
    have hsorted_top : List.Pairwise rankGeT (rows.filter (fun r => decide (rowPlain r ∈ tops))) :=
      List.Pairwise.sublist (List.filter_sublist rows) hsorted
    rw [heq] at hstop hsorted_top
    obtain ⟨-, hrpost, -⟩ := List.pairwise_append.mp hsorted_top
    rcases List.mem_append.mp hstop with hpre' | hcons
    · exact absurd hsplain (hpre s hpre')
    · rcases List.mem_cons.mp hcons with rfl | hpost
      · exact rankGeT_refl _
      · exact (List.pairwise_cons.mp hrpost).1 s hpost

/-- Witness for C8 at a concrete sorted input. -/
theorem pick_top_company_one_each_spec_witness :
    List.Pairwise rankGeT
      [(⟨2, 0, "👑 SK"⟩ : TRow), ⟨1, 0, "👑 현대"⟩, ⟨0, 9, "💎 기타사"⟩] ∧
    (pick_top_company_one_each
      [(⟨2, 0, "👑 SK"⟩ : TRow), ⟨1, 0, "👑 현대"⟩, ⟨0, 9, "💎 기타사"⟩]
      ["현대", "SK", "LG", "한화", "고려아연"]).length ≤ TOP_COMPANY_MAX :=
  ⟨by decide,
   (pick_top_company_one_each_spec
      [(⟨2, 0, "👑 SK"⟩ : TRow), ⟨1, 0, "👑 현대"⟩, ⟨0, 9, "💎 기타사"⟩]
      ["현대", "SK", "LG", "한화", "고려아연"] (by decide)).1⟩

/-! ### Shared lemmas about `jaccard` and `dedupGo` (claims C5 and C9) -/

theorem jaccard_comm (a b : Finset String) : jaccard a b = jaccard b a := by
  by_cases ha : a = ∅ <;> by_cases hb : b = ∅ <;>
    simp [jaccard, ha, hb, Finset.inter_comm, Finset.union_comm]

theorem jaccard_both_empty : jaccard (∅ : Finset String) ∅ = 1 := by
  simp [jaccard]

theorem jaccard_empty_left (b : Finset String) (hb : b ≠ ∅) : jaccard ∅ b = 0 := by
  simp [jaccard, hb]

theorem threshold_le_one : SIMILARITY_THRESHOLD ≤ 1 := by
  norm_num [SIMILARITY_THRESHOLD]

theorem zero_lt_threshold : 0 < SIMILARITY_THRESHOLD := by
  norm_num [SIMILARITY_THRESHOLD]

theorem isDup_eq_false_iff (kept : List DRow) (r : DRow) :
    isDup kept r = false ↔ ∀ k ∈ kept, ¬ SIMILARITY_THRESHOLD ≤ jaccard r.sig k.sig := by
  simp [isDup]

theorem dedupGo_pairwise :
    ∀ (rows kept : List DRow), List.Pairwise dissimilar kept →
      List.Pairwise dissimilar (dedupGo kept rows) := by
  intro rows
  induction rows with
  | nil => intro kept hk; simpa [dedupGo] using hk
  | cons r rest ih =>
    intro kept hk
    cases hdup : isDup kept r with
    | true => simpa [dedupGo, hdup] using ih kept hk
    | false =>
      simp only [dedupGo, hdup, Bool.false_eq_true, if_false]
      refine ih (kept ++ [r]) ?_
      rw [List.pairwise_append]
      refine ⟨hk, by simp, ?_⟩
      intro k hkmem b hb
      have hb' : b = r := by simpa using hb
      rw [hb']
      have hlt : jaccard r.sig k.sig < SIMILARITY_THRESHOLD :=
        lt_of_not_le ((isDup_eq_false_iff kept r).mp hdup k hkmem)
      exact ⟨by rwa [jaccard_comm], hlt⟩

theorem dedupGo_split :
    ∀ (rows kept : List DRow), ∃ s, dedupGo kept rows = kept ++ s ∧ s.Sublist rows := by
  intro rows
  induction rows with
  | nil => intro kept; exact ⟨[], by simp [dedupGo], List.Sublist.refl _⟩
  | cons r rest ih =>
    intro kept
    cases hdup : isDup kept r with
    | true =>
      obtain ⟨s, hs, hsub⟩ := ih kept
      exact ⟨s, by simpa [dedupGo, hdup] using hs, hsub.cons r⟩
    | false =>
      obtain ⟨s, hs, hsub⟩ := ih (kept ++ [r])
      refine ⟨r :: s, ?_, hsub.cons₂ r⟩
      simpa [dedupGo, hdup] using hs

theorem dedupGo_filter_empty_of_mem :
    ∀ (rows kept : List DRow), (∃ k ∈ kept, k.sig = ∅) →
      (dedupGo kept rows).filter hasEmptySig = kept.filter hasEmptySig := by
  intro rows
  induction rows with
  | nil => intro kept _; simp [dedupGo]
  | cons r rest ih =>
    intro kept hex
    by_cases hr : r.sig = ∅
    · have hdup : isDup kept r = true := by
        obtain ⟨k, hk, hke⟩ := hex
        refine List.any_eq_true.mpr ⟨k, hk, ?_⟩
        simp [hr, hke, jaccard_both_empty, threshold_le_one]
      simpa [dedupGo, hdup] using ih kept hex
    · cases hdup : isDup kept r with
      | true => simpa [dedupGo, hdup] using ih kept hex
      | false =>
        have := ih (kept ++ [r]) (by obtain ⟨k, hk, hke⟩ := hex; exact ⟨k, by simp [hk], hke⟩)
        simp only [dedupGo, hdup, Bool.false_eq_true, if_false]
        rw [this, List.filter_append]
        simp [hasEmptySig, hr]

theorem dedupGo_filter_empty_of_none :
    ∀ (rows kept : List DRow), (∀ k ∈ kept, k.sig ≠ ∅) →
      (dedupGo kept rows).filter hasEmptySig = (rows.filter hasEmptySig).take 1 := by
  intro rows
  induction rows with
  | nil =>
    intro kept hk
    simp only [dedupGo, List.filter_nil, List.take_nil]
    exact List.filter_eq_nil_iff.mpr (fun k hkm => by simp [hasEmptySig, hk k hkm])
  | cons r rest ih =>
    intro kept hk
    by_cases hr : r.sig = ∅
    · have hdup : isDup kept r = false := by
        refine (isDup_eq_false_iff kept r).mpr (fun k hkm => ?_)
        rw [hr, jaccard_empty_left k.sig (hk k hkm)]
        exact not_le_of_lt zero_lt_threshold
      simp only [dedupGo, hdup, Bool.false_eq_true, if_false]
      rw [dedupGo_filter_empty_of_mem rest (kept ++ [r]) ⟨r, by simp, hr⟩, List.filter_append]
      have h1 : kept.filter hasEmptySig = [] :=
        List.filter_eq_nil_iff.mpr (fun k hkm => by simp [hasEmptySig, hk k hkm])
      simp [h1, hasEmptySig, hr, List.filter_cons]
    · cases hdup : isDup kept r with
      | true =>
        rw [show (r :: rest).filter hasEmptySig = rest.filter hasEmptySig from by
          simp [List.filter_cons, hasEmptySig, hr]]
        simpa [dedupGo, hdup] using ih kept hk
      | false =>
        rw [show (r :: rest).filter hasEmptySig = rest.filter hasEmptySig from by
          simp [List.filter_cons, hasEmptySig, hr]]
        simp only [dedupGo, hdup, Bool.false_eq_true, if_false]
        exact ih (kept ++ [r]) (by
          intro k hkm
          rcases List.mem_append.mp hkm with h | h
          · exact hk k h
          · simpa [List.mem_singleton.mp h] using hr)

/-! ### C9: the output of `dedup_similar` is pairwise dissimilar -/

/-- Claim C9: for every input list, every pair of distinct records in the
output of `dedup_similar` has Jaccard similarity of their signatures
strictly below the 0.86 threshold (in both argument orders, the function
being symmetric), and the output is a subsequence of the input as sorted
by (timestamp descending, score descending). -/
theorem dedup_similar_pairwise_dissimilar (rows : List DRow) :
    List.Pairwise dissimilar (dedup_similar rows) ∧
    (dedup_similar rows).Sublist (sortRows rows) := by
  constructor
  · exact dedupGo_pairwise (sortRows rows) [] (by simp)
  · obtain ⟨s, hs, hsub⟩ := dedupGo_split (sortRows rows) []
    simpa [dedup_similar, hs] using hsub

/-! ### C5: the Jaccard edge cases and their effect on deduplication -/

/-- Claim C5: `jaccard` returns 1 on two empty sets, 0 when exactly one
side is empty, and `|a ∩ b| / |a ∪ b|` otherwise; consequently, among the
records whose title signatures are empty, exactly the first one of the
globally sorted input survives `dedup_similar` — every other empty-signature
record is discarded as its duplicate. -/
theorem jaccard_empty_dedup_spec :
    jaccard ∅ ∅ = 1 ∧
    (∀ b : Finset String, b ≠ ∅ → jaccard ∅ b = 0 ∧ jaccard b ∅ = 0) ∧
    (∀ a b : Finset String, a ≠ ∅ → b ≠ ∅ →
      jaccard a b = ((a ∩ b).card : ℚ) / ((a ∪ b).card : ℚ)) ∧
    (∀ rows : List DRow,
      (dedup_similar rows).filter hasEmptySig = ((sortRows rows).filter hasEmptySig).take 1) := by
  refine ⟨jaccard_both_empty, ?_, ?_, ?_⟩
  · intro b hb
    exact ⟨jaccard_empty_left b hb, by rw [jaccard_comm]; exact jaccard_empty_left b hb⟩
  · intro a b ha hb
    have hu : (a ∪ b).card ≠ 0 := by
      simp only [ne_eq, Finset.card_eq_zero, Finset.union_eq_empty]
      exact fun h => ha h.1
    simp [jaccard, ha, hb, hu]
  · intro rows
    exact dedupGo_filter_empty_of_none (sortRows rows) [] (by simp)

/-- Witness for C5 with the hypotheses discharged at concrete sets. -/
theorem jaccard_empty_dedup_spec_witness :
    (jaccard ∅ {"x"} = 0 ∧ jaccard {"x"} ∅ = 0) ∧
    jaccard {"x"} {"x", "y"} = (({"x"} ∩ {"x", "y"} : Finset String).card : ℚ) /
      (({"x"} ∪ {"x", "y"} : Finset String).card : ℚ) :=
  ⟨jaccard_empty_dedup_spec.2.1 {"x"} (by decide),
   jaccard_empty_dedup_spec.2.2.1 {"x"} {"x", "y"} (by decide) (by decide)⟩

/-! ### C4: totality and ordering of date resolution -/

theorem toList_append (s t : String) : (s ++ t).toList = s.toList ++ t.toList := by
  cases s
  cases t
  rfl

theorem mk_toList (s : String) : String.mk s.toList = s := by
  cases s
  rfl

theorem toList_eq_nil_iff (s : String) : s.toList = [] ↔ s = "" := by
  cases s
  rw [String.ext_iff]
  rfl

theorem length_eq_four {α : Type} {l : List α} :
    l.length = 4 ↔ ∃ a b c d, l = [a, b, c, d] := by
  constructor
  · intro h
    rcases l with _ | ⟨a, _ | ⟨b, _ | ⟨c, _ | ⟨d, _ | ⟨e, t⟩⟩⟩⟩⟩ <;> simp_all
  · rintro ⟨a, b, c, d, rfl⟩
    rfl

theorem digit_ne_dot (c : Char) (h : c.isDigit = true) : c ≠ '.' := by
  intro hc
  rw [hc] at h
  exact absurd h (by decide)

theorem splitDotAux_append (xs : List Char) (hxs : ∀ c ∈ xs, c ≠ '.') :
    ∀ (cur l : List Char), splitDotAux cur (xs ++ l) = splitDotAux (xs.reverse ++ cur) l := by
  induction xs with
  | nil => intro cur l; simp
  | cons c rest ih =>
    intro cur l
    have hc : c ≠ '.' := hxs c (by simp)
    calc splitDotAux cur ((c :: rest) ++ l)
        = splitDotAux (c :: cur) (rest ++ l) := by
          simp only [List.cons_append, splitDotAux, if_neg hc]
          rfl
      _ = splitDotAux (rest.reverse ++ (c :: cur)) l :=
          ih (fun d hd => hxs d (by simp [hd])) (c :: cur) l
      _ = splitDotAux ((c :: rest).reverse ++ cur) l := by simp

theorem safe_parse_date_aware (oracle : String → Option PyDT) (s : String) (d : PyDT)
    (h : safe_parse_date oracle s = some d) : d.tz ≠ none := by
  unfold safe_parse_date at h
  split at h
  · exact absurd h (by simp)
  · split at h
    · exact absurd h (by simp)
    · rename_i dt _
      split at h
      · cases h
        simp
      · rename_i htz
        cases h
        exact htz

/-- Claim C4: date resolution is total and never surfaces a failure — for
every parser behaviour and every date text it yields either a timestamp or
the absent value; a timezone-naive parse is stamped UTC; and every date
text fully matching the numeric `MM.DD.YYYY` pattern is split and
rearranged into ISO `YYYY-MM-DD` order before being handed to the generic
parser, so `"02.04.2026"` is read as 2026-02-04. -/
theorem date_resolution_spec :
    (∀ (oracle : String → Option PyDT) (dateText : Option String),
      resolveDate oracle dateText = none ∨
      ∃ d, resolveDate oracle dateText = some d ∧ d.tz ≠ none) ∧
    (∀ (oracle : String → Option PyDT) (s : String) (dt : PyDT), s ≠ "" →
      oracle s = some dt → dt.tz = none →
      safe_parse_date oracle s = some ⟨dt.year, dt.month, dt.day, some 0⟩) ∧
    (∀ (oracle : String → Option PyDT) (mm dd yyyy : String),
      mm.toList.all Char.isDigit = true → mm.toList.length = 2 →
      dd.toList.all Char.isDigit = true → dd.toList.length = 2 →
      yyyy.toList.all Char.isDigit = true → yyyy.toList.length = 4 →
      resolveDate oracle (some (mm ++ "." ++ dd ++ "." ++ yyyy)) =
        safe_parse_date oracle (yyyy ++ "-" ++ mm ++ "-" ++ dd)) := by
  refine ⟨?_, ?_, ?_⟩
  · intro oracle dateText
    cases h : resolveDate oracle dateText with
    | none => exact Or.inl rfl
    | some d =>
      refine Or.inr ⟨d, rfl, ?_⟩
      unfold resolveDate at h
      split at h
      · exact absurd h (by simp)
      · split at h
        · exact absurd h (by simp)
        · split at h
          · split at h
            · exact safe_parse_date_aware _ _ _ h
            · exact absurd h (by simp)
          · exact safe_parse_date_aware _ _ _ h
  · intro oracle s dt hs horacle htz
    unfold safe_parse_date
    rw [if_neg hs, horacle]
    simp [htz]
  · intro oracle mm dd yyyy hmd hml hdd hdl hyd hyl
    obtain ⟨m1, m2, hmm⟩ := List.length_eq_two.mp hml
    obtain ⟨d1, d2, hdd2⟩ := List.length_eq_two.mp hdl
    obtain ⟨y1, y2, y3, y4, hyy⟩ := length_eq_four.mp hyl
    have hlist : (mm ++ "." ++ dd ++ "." ++ yyyy).toList =
        mm.toList ++ '.' :: (dd.toList ++ '.' :: yyyy.toList) := by
      simp [toList_append]
    have hmmd : ∀ c ∈ mm.toList, c ≠ '.' := by
      intro c hc
      exact digit_ne_dot c (by simpa using (List.all_eq_true.mp hmd c hc))
    have hddd : ∀ c ∈ dd.toList, c ≠ '.' := by
      intro c hc
      exact digit_ne_dot c (by simpa using (List.all_eq_true.mp hdd c hc))
    have hsplit : splitDot ((mm ++ "." ++ dd ++ "." ++ yyyy).toList) =
        [mm.toList, dd.toList, yyyy.toList] := by
      rw [hlist]
      unfold splitDot
      rw [splitDotAux_append mm.toList hmmd [] ('.' :: (dd.toList ++ '.' :: yyyy.toList))]
      simp only [splitDotAux, if_pos rfl, List.append_nil, List.reverse_reverse]
      rw [splitDotAux_append dd.toList hddd [] ('.' :: yyyy.toList)]
      simp only [splitDotAux, if_pos rfl, List.append_nil, List.reverse_reverse]
      rw [show splitDotAux [] yyyy.toList = splitDotAux [] (yyyy.toList ++ []) from by simp]
      rw [splitDotAux_append yyyy.toList
        (fun c hc => digit_ne_dot c (by simpa using (List.all_eq_true.mp hyd c hc))) [] []]
      simp [splitDotAux]
    have hne : (mm ++ "." ++ dd ++ "." ++ yyyy) ≠ "" := by
      intro hcon
      rw [← toList_eq_nil_iff] at hcon
      rw [hlist, hmm] at hcon
      simp at hcon
    have hdot : isDotDate (mm ++ "." ++ dd ++ "." ++ yyyy) = true := by
      unfold isDotDate
      rw [hlist, hmm, hdd2, hyy]
      simp only [List.cons_append, List.nil_append]
      rw [hmm] at hmd
      rw [hdd2] at hdd
      rw [hyy] at hyd
      simp only [List.all_cons, List.all_nil, Bool.and_true, Bool.and_eq_true] at hmd hdd hyd
      simp [hmd.1, hmd.2, hdd.1, hdd.2, hyd.1, hyd.2.1, hyd.2.2.1, hyd.2.2.2]
    simp only [resolveDate]
    rw [if_neg hne, if_pos hdot, hsplit]
    simp [mk_toList]

/-- Witness for C4: the site-specific text `"02.04.2026"` is rearranged to
the ISO string and, under the concrete parser `oracleIso`, resolves to
2026-02-04 stamped UTC. -/
theorem date_resolution_spec_witness :
    resolveDate oracleIso (some "02.04.2026") = safe_parse_date oracleIso "2026-02-04" ∧
    safe_parse_date oracleIso "2026-02-04" = some ⟨2026, 2, 4, some 0⟩ :=
  ⟨date_resolution_spec.2.2 oracleIso "02" "04" "2026"
      (by decide) (by decide) (by decide) (by decide) (by decide) (by decide),
   date_resolution_spec.2.1 oracleIso "2026-02-04" ⟨2026, 2, 4, none⟩
      (by decide) (by decide) rfl⟩

/-! ### C6: company detection and the last-resort marker -/

theorem find?_of_decomp {α : Type} (f : α → Bool) :
    ∀ (pre : List α) (p : α) (post : List α), (∀ q ∈ pre, f q = false) → f p = true →
      (pre ++ p :: post).find? f = some p := by
  intro pre
  induction pre with
  | nil => intro p post _ hp; simp [List.find?_cons, hp]
  | cons a rest ih =>
    intro p post hpre hp
    have ha : f a = false := hpre a (by simp)
    simpa [List.find?_cons, ha] using ih p post (fun q hq => hpre q (by simp [hq])) hp

/-- Counterexample for C6: on the title `"미확인"` the detector returns the
literal marker string even though a token of the title survives stop-word
filtering — the leading-token tier extracts the token `"미확인"` itself. -/
theorem detect_company_marker_with_token :
    detect_company_from_title "미확인" = "미확인" ∧
    cleanedTokens (norm_text "미확인") = ["미확인"] := by
  refine ⟨by decide, by decide⟩

/-- Claim C6 as amended: the detector is total; it yields the marker value
`"미확인"` only when no alphanumeric/hangul token of the title survives
stop-word filtering *or* some extraction tier genuinely produced the token
`"미확인"` from the text of the title itself; and whenever the title contains a
configured alias of a priority company, the canonical name of the first
matching company is returned, taking precedence over all token
heuristics. -/
theorem detect_company_spec :
    (∀ t, detect_company_from_title t = "미확인" →
      cleanedTokens (norm_text t) = [] ∨
      leadTok (norm_text t) = some "미확인" ∨
      (cleanedTokens (norm_text t)).find? hasSuffixHint = some "미확인" ∨
      (cleanedTokens (norm_text t)).find? hasEnSuffix = some "미확인" ∨
      (cleanedTokens (norm_text t)).head? = some "미확인") ∧
    (∀ (t : String) (pre : List (String × List String)) (canon : String)
        (aliases : List String) (post : List (String × List String)),
      TOP5_ALIASES = pre ++ (canon, aliases) :: post →
      aliasHit (norm_text t) (canon, aliases) = true →
      (∀ q ∈ pre, aliasHit (norm_text t) q = false) →
      detect_company_from_title t = canon) := by
  constructor
  · intro t h
    simp only [detect_company_from_title] at h
    split at h
    · rename_i canon heq
      exfalso
      obtain ⟨p, hfind, hp1⟩ := Option.map_eq_some'.mp heq
      have hmem := List.mem_of_find?_eq_some hfind
      have hbad : p.1 = "미확인" := hp1.trans h
      simp only [TOP5_ALIASES, List.mem_cons, List.not_mem_nil, or_false] at hmem
      rcases hmem with rfl | rfl | rfl | rfl | rfl <;> exact absurd hbad (by decide)
    · split at h
      · exact Or.inr (Or.inl (by rename_i cand hlead; rw [hlead, h]))
      · split at h
        · exact Or.inr (Or.inr (Or.inl (by rename_i tok htok; rw [htok, h])))
        · split at h
          · exact Or.inr (Or.inr (Or.inr (Or.inl (by rename_i tok htok; rw [htok, h]))))
          · split at h
            · refine Or.inr (Or.inr (Or.inr (Or.inr ?_)))
              rename_i tok rest htoks
              rw [htoks, h]
              rfl
            · rename_i htoks
              exact Or.inl htoks
  · intro t pre canon aliases post hdecomp hhit hpre
    have hfind : TOP5_ALIASES.find? (aliasHit (norm_text t)) = some (canon, aliases) := by
      rw [hdecomp]
      exact find?_of_decomp (aliasHit (norm_text t)) pre (canon, aliases) post hpre hhit
    simp only [detect_company_from_title]
    rw [hfind]
    rfl

/-- Witness for the amended C6 theorem: the marker case at `"!!"` (no token
survives) and the alias precedence at a title containing the `LG Chem`
alias but no alias of the two companies before `LG` in the table. -/
theorem detect_company_spec_witness :
    (cleanedTokens (norm_text "!!") = [] ∨
      leadTok (norm_text "!!") = some "미확인" ∨
      (cleanedTokens (norm_text "!!")).find? hasSuffixHint = some "미확인" ∨
      (cleanedTokens (norm_text "!!")).find? hasEnSuffix = some "미확인" ∨
      (cleanedTokens (norm_text "!!")).head? = some "미확인") ∧
    detect_company_from_title "LG Chem plant" = "LG" :=
  ⟨detect_company_spec.1 "!!" (by decide),
   detect_company_spec.2 "LG Chem plant"
     [("현대", ["현대", "현대차", "Hyundai", "기아", "Kia"]),
      ("SK", ["SK", "SK온", "SK hynix", "SK하이닉스", "하이닉스", "SK Innovation", "SK이노베이션"])]
     "LG" ["LG", "LG에너지솔루션", "LG Energy Solution", "LG화학", "LG Chem"]
     [("한화", ["한화", "Hanwha", "한화큐셀", "Qcells", "Q CELLS"]),
      ("고려아연", ["고려아연", "Korea Zinc", "KoreaZinc"])]
     (by decide) (by decide) (by decide)⟩

/-! ### C7: determinism and the limits of discrimination of `make_id` -/

/-- Counterexample for C7: two triples that differ in the provider and in
the normalized title nevertheless hash identically, because the `||`
separator makes the joined encoding ambiguous. -/
theorem make_id_separator_collision :
    make_id "a|" "b" "u" = make_id "a" "|b" "u" ∧
    ("a|", norm_text "b", norm_text "u") ≠ ("a", norm_text "|b", norm_text "u") := by
  refine ⟨congrArg (fun s => hexDigest (sha256bytes (utf8Bytes s))) ?_, by decide⟩
  decide

/-- Claim C7 as amended: `make_id` is deterministic (same triple, same
value), and triples whose `||`-joined raw encodings agree — which can
happen for distinct triples, as the counterexample shows — always receive
the same hash; distinct hashes therefore require distinct encodings, but
distinct triples alone do not guarantee distinct hashes. -/
theorem make_id_deterministic_congruent :
    (∀ p t u, make_id p t u = make_id p t u) ∧
    (∀ p t u q v w, makeRaw p t u = makeRaw q v w → make_id p t u = make_id q v w) := by
  refine ⟨fun _ _ _ => rfl, fun p t u q v w h => ?_⟩
  unfold make_id
  rw [h]

/-- Witness for the amended C7 theorem: the congruence applied at the
colliding pair of triples. -/
theorem make_id_deterministic_congruent_witness :
    make_id "x|" "y" "z" = make_id "x" "|y" "z" :=
  make_id_deterministic_congruent.2 "x|" "y" "z" "x" "|y" "z" (by decide)

/-! ## Concrete sanity evaluations of the embedded functions -/

example : detect_state_strict [] "xGAx" "u" = "GA" := by decide

example : detect_state_strict [] "MEGA deal" "u" = "Global" := by decide

example : detect_state_strict [("GA", ["Georgia"])] "georgia on my mind" "u" = "GA" := by decide

example : detect_state_strict [] "plant in GA today" "u" = "GA" := by decide

example : detect_company_from_title "현대자동차 조지아 공장 2억달러 투자 발표" = "현대" := by decide

example : detect_company_from_title "!!" = "미확인" := by decide

example : detect_company_from_title "미확인" = "미확인" := by decide

example : cleanedTokens (norm_text "미확인") = ["미확인"] := by decide

example : detect_company_from_title "Governor Announces New Jobs Initiative" = "New" := by decide

example : classify_tag "현대자동차 조지아 공장 2억달러 투자 발표" = "[신규 투자]" := by decide

example : importance_score ["현대"] "현대차 공장 투자" "현대" = 135 := by decide

example : importance_score ["현대"] "아무 제목" "기타회사" = 5 := by decide

example : jaccard ∅ ∅ = 1 := by decide

example : jaccard ∅ {"x"} = 0 := by decide

example : isDotDate "02.04.2026" = true := by decide

example : isDotDate "2.4.2026" = false := by decide

example : splitDot "02.04.2026".toList = ["02".toList, "04".toList, "2026".toList] := by decide

example : makeRaw "a|" "b" "u" = "a|||b||u" := by decide

example : makeRaw "a" "|b" "u" = "a|||b||u" := by decide

example :
    pick_top_company_one_each
      [⟨3, 0, "💎 기타사"⟩, ⟨2, 0, "👑 SK"⟩, ⟨1, 0, "👑 현대"⟩, ⟨0, 9, "👑 SK"⟩]
      ["현대", "SK", "LG", "한화", "고려아연"] =
    [⟨1, 0, "👑 현대"⟩, ⟨2, 0, "👑 SK"⟩] := by decide
